import Mathlib

/-!
Verification of the HPC Submission Launcher (`hydra_hpc_launcher`).

This file shallowly embeds the dispatch routine
`HPCSubmissionLauncher.launch` from
`src/hydra_hpc_launcher/launcher/launcher.py`: override sanitization,
script-path extraction, scheduler command assembly, response parsing and
the per-run dispatch loop.  Strings are modelled as `List Char`
(Python `str`), paths as their string form, and the external
collaborators (the scheduler subprocess, the config resolver and the
filesystem path resolution) as oracle functions carried in an
environment record.
-/

namespace HPCLauncher

/-- The open-brace character, written numerically. -/
def lbrace : Char := Char.ofNat 123

/-- The close-brace character, written numerically. -/
def rbrace : Char := Char.ofNat 125

/-- Python substring test `pat in s`. -/
def containsSub (pat : List Char) : List Char → Bool
  | [] => pat.isEmpty
  | c :: rest => pat.isPrefixOf (c :: rest) || containsSub pat rest

/-- Python `s.split("=", 1)` when it yields two parts: the text before the
first `=` and the text after it; `none` when `s` has no `=` (in which case
the Python two-name unpacking raises `ValueError`). -/
def splitFirstEq (s : List Char) : Option (List Char × List Char) :=
  match s.dropWhile (· ≠ '=') with
  | [] => none
  | _ :: v => some (s.takeWhile (· ≠ '='), v)

/-- The text after the first `=` of `s` (Python `s.split("=", 1)[1]`;
only used on strings known to contain `=`). -/
def afterFirstEq (s : List Char) : List Char :=
  (s.dropWhile (· ≠ '=')).drop 1

/-- Python `s.replace(c, rep)` for a single-character pattern `c`. -/
def replaceC (c : Char) (rep : List Char) (s : List Char) : List Char :=
  s.flatMap (fun x => if x = c then rep else [x])

/-- Fuel-driven worker for `replaceSub` (the fuel, initially the string
length, dominates the number of steps, making the function reduce in
the kernel). -/
def replaceSubAux (pat rep : List Char) : Nat → List Char → List Char
  | 0, s => s
  | _ + 1, [] => []
  | fuel + 1, c :: rest =>
    if pat ≠ [] ∧ pat.isPrefixOf (c :: rest) then
      rep ++ replaceSubAux pat rep fuel ((c :: rest).drop pat.length)
    else
      c :: replaceSubAux pat rep fuel rest

/-- Python `s.replace(pat, rep)` for a non-empty multi-character
pattern: replace non-overlapping occurrences left to right. -/
def replaceSub (pat rep : List Char) (s : List Char) : List Char :=
  replaceSubAux pat rep s.length s

/-- Python `" ".join(xs)`. -/
def joinSp : List (List Char) → List Char
  | [] => []
  | [x] => x
  | x :: y :: rest => x ++ ' ' :: joinSp (y :: rest)

/-- Decimal digits of a natural number, fuel-driven so that it reduces
in the kernel. -/
def natCharsAux : Nat → Nat → List Char
  | 0, _ => []
  | fuel + 1, n =>
    if n < 10 then [Nat.digitChar n]
    else natCharsAux fuel (n / 10) ++ [Nat.digitChar (n % 10)]

/-- Python `f"{n}"` for a non-negative integer. -/
def natChars (n : Nat) : List Char := natCharsAux (n + 1) n

/-- Python `f"{i}"` for an `int`. -/
def intChars : Int → List Char
  | .ofNat n => natChars n
  | .negSucc n => '-' :: natChars (n + 1)

/-- Python `PurePosixPath(p).name`: the final path component, after dropping
empty and `.` components (the normalizations `pathlib` performs). -/
def pathName (p : List Char) : List Char :=
  (((p.splitOn '/').filter (fun c => c ≠ [] ∧ c ≠ ['.']))).getLastD []

/-- Python `PurePosixPath(p).suffix`: the file extension of the final component
(text from the last dot, provided the dot is neither the first nor the
last character of the name), `""` otherwise. -/
def pathSuffix (p : List Char) : List Char :=
  let n := pathName p
  let extR := n.reverse.takeWhile (· ≠ '.')
  if extR ≠ [] ∧ extR.length + 1 < n.length then '.' :: extR.reverse else []

/-- The HPC queue enumeration (`HPCQueue` in the repository); `DEFAULT`
(value `""`) is the "unset" sentinel. -/
inductive HPCQueue where
  | DEFAULT
  | CUDA
  | DSML
  deriving DecidableEq, Repr

/-- The string value of a queue member (`StrEnum` value). -/
def HPCQueue.value : HPCQueue → List Char
  | .DEFAULT => []
  | .CUDA => "CUDA".toList
  | .DSML => "DSML".toList

/-- The hardware/software template enumeration (`Template`). -/
inductive Template where
  | DSML_SHORT
  | DSML
  | CPU
  | GTX1080
  | TESLAT4
  | RTX6000
  | RTX8000
  | A100_40GB
  | A100_80GB
  deriving DecidableEq, Repr

/-- The string value of a template member. -/
def Template.value : Template → List Char
  | .DSML_SHORT => "DSML_SHORT".toList
  | .DSML => "DSML".toList
  | .CPU => "CPU".toList
  | .GTX1080 => "GTX1080".toList
  | .TESLAT4 => "TESLAT4".toList
  | .RTX6000 => "RTX6000".toList
  | .RTX8000 => "RTX8000".toList
  | .A100_40GB => "A100_40GB".toList
  | .A100_80GB => "A100_80GB".toList

/-- Modelled from the spec: the package-manager enumeration
(`PackageManager` in the missing `launcher/types.py` module;
"package-manager tag (enum naming how to invoke a script that has no
file extension and resides in a binary directory)", with `UV` as the
configured default). -/
inductive PackageManager where
  | UV
  deriving DecidableEq, Repr

/-- Modelled from the spec: the string value of a package-manager member. -/
def PackageManager.value : PackageManager → List Char
  | .UV => "uv".toList

/-- Hydra's `JobStatus` enumeration (external collaborator). -/
inductive JobStatus where
  | UNKNOWN
  | COMPLETED
  | FAILED
  deriving DecidableEq, Repr

/-! ## Override sanitizer (launcher.py lines 111-151) -/

/-- The substring `"+launch"` tested by the sanitizer's pass-through
condition and by the launch-override routing test. -/
def plusLaunch : List Char := "+launch".toList

/-- The substring `"+launch."` stripped from launch-override keys. -/
def plusLaunchDot : List Char := "+launch.".toList

/-- The substring `"+launch/"` stripped from launch-override keys. -/
def plusLaunchSlash : List Char := "+launch/".toList

/-- The value-rewriting pipeline of the sanitizer:
`value.replace("\\", "")`, then escape `(`, `)`, `{`, `}` (each guarded
by a containment test, as in the source), then `$` → `\\\\$`. -/
def escapeValue (v : List Char) : List Char :=
  let v1 := replaceC '\\' [] v
  let v2 := if v1.contains '(' then replaceC '(' ['\\', '('] v1 else v1
  let v3 := if v2.contains ')' then replaceC ')' ['\\', ')'] v2 else v2
  let v4 := if v3.contains lbrace then replaceC lbrace ['\\', lbrace] v3 else v3
  let v5 := if v4.contains rbrace then replaceC rbrace ['\\', rbrace] v4 else v4
  if v5.contains '$' then replaceC '$' ['\\', '\\', '\\', '\\', '$'] v5 else v5

/-- Wrap an escaped value for interpolation into
`f'{key}=\\"{value}\\"'`: the part after the key, i.e.
`'=' :: '\' :: '"' :: value ++ ['\', '"']`. -/
def escQuote (v : List Char) : List Char :=
  '=' :: '\\' :: '"' :: (v ++ ['\\', '"'])

/-- Python `key.replace("+launch.", "").replace("+launch/", "")`. -/
def stripLaunchKey (k : List Char) : List Char :=
  replaceSub plusLaunchSlash [] (replaceSub plusLaunchDot [] k)

/-- Where a sanitized token is routed: the task-override list
(`overrides_list`) or the launch-override accumulator
(`launch_command_overrides`). -/
inductive Routed where
  | task (tok : List Char)
  | launchOv (tok : List Char)
  deriving DecidableEq, Repr

/-- One iteration of the sanitizer loop: a token containing none of
`\`, `$`, `+launch` passes through unchanged to the task list; otherwise
it is split on the first `=` (`none` models the `ValueError` raised when
there is no `=`), its value is escaped, and the token is routed by
whether the key contains `+launch`. -/
def sanitizeToken (tok : List Char) : Option Routed :=
  if tok.contains '\\' = false ∧ tok.contains '$' = false ∧
      containsSub plusLaunch tok = false then
    some (.task tok)
  else
    match splitFirstEq tok with
    | none => none
    | some (k, v) =>
      let ev := escapeValue v
      if containsSub plusLaunch k then
        some (.launchOv (stripLaunchKey k ++ escQuote ev))
      else
        some (.task (k ++ escQuote ev))

/-- The sanitizer loop over a whole token batch, collecting the task
list and the launch accumulator in encounter order; `none` when any
token raises. -/
def sanitizeSplit : List (List Char) → Option (List (List Char) × List (List Char))
  | [] => some ([], [])
  | tok :: rest =>
    match sanitizeToken tok, sanitizeSplit rest with
    | some (.task t), some (ts, ls) => some (t :: ts, ls)
    | some (.launchOv l), some (ts, ls) => some (ts, l :: ls)
    | _, _ => none

/-- The final sanitized token sequence: the task list, extended with a
literal `--` and the launch accumulator when the latter is non-empty. -/
def sanitizeOverrides (toks : List (List Char)) : Option (List (List Char)) :=
  (sanitizeSplit toks).map
    (fun p => if p.2.isEmpty then p.1 else p.1 ++ "--".toList :: p.2)

/-! ## Script-path determination (launcher.py lines 93-109) -/

/-- The substring `"+launch.script="` that selects the script override. -/
def scriptPat : List Char := "+launch.script=".toList

/-- Remove the first element satisfying `p` (Python
`xs.pop(xs.index(next(x for x in xs if p(x))))`, which removes the first
match since equal strings satisfy `p` together). -/
def removeFirst (p : List Char → Bool) : List (List Char) → List (List Char)
  | [] => []
  | t :: rest => if p t then rest else t :: removeFirst p rest

/-- The script-path determination step: the script defaults to
`sys.argv[0]`; when some token contains `+launch.script=`, the script
becomes the text after the first `=` of the first such token and that
token is removed from the sequence (in place, in the source). Returns
the script and the resulting token sequence. -/
def extractScript (argv0 : List Char) (toks : List (List Char)) :
    List Char × List (List Char) :=
  match toks.find? (fun t => containsSub scriptPat t) with
  | none => (argv0, toks)
  | some t => (afterFirstEq t, removeFirst (fun t2 => containsSub scriptPat t2) toks)

/-- The packaged-executable rewrite: when the script has no file
extension and its resolved parent directory is named `bin`, the script
becomes `{package_manager.value}:{basename}`. `resolvedParentName`
stands for `Path(p).resolve().parent.name` (a filesystem oracle). -/
def binRewrite (pm : PackageManager) (resolvedParentName : List Char → List Char)
    (script : List Char) : List Char :=
  if pathSuffix script = [] ∧ resolvedParentName script = "bin".toList then
    pm.value ++ ':' :: pathName script
  else script

/-! ## Command builder (launcher.py lines 153-172) -/

/-- The launcher's construction-time settings. -/
structure LaunchSettings where
  queue : HPCQueue
  ncpus : Int
  memory : Int
  ngpus : Int
  walltime : List Char
  template : Template
  packageManager : PackageManager
  deriving DecidableEq, Repr

/-- The source's `launch_command_list`: the pieces later joined with spaces;
`--queue` is appended only when the queue is not the `DEFAULT`
sentinel. -/
def launchCommandList (s : LaunchSettings) (jobName jobScript jobScriptArgs : List Char) :
    List (List Char) :=
  ["hpc".toList, "run".toList,
   "--job_name ".toList ++ jobName,
   "--job_script ".toList ++ jobScript,
   "--job_script_args \"".toList ++ (jobScriptArgs ++ ['"']),
   "--template ".toList ++ s.template.value,
   "--ncpus ".toList ++ intChars s.ncpus,
   "--memory ".toList ++ intChars s.memory,
   "--ngpus ".toList ++ intChars s.ngpus,
   "--walltime=".toList ++ s.walltime] ++
  (if s.queue ≠ HPCQueue.DEFAULT then ["--queue ".toList ++ s.queue.value] else [])

/-- The source's `launch_command`: the space-joined command string. -/
def buildCommand (s : LaunchSettings) (jobName jobScript jobScriptArgs : List Char) :
    List Char :=
  joinSp (launchCommandList s jobName jobScript jobScriptArgs)

/-- Modelled from the spec's command-line template: `hpc run --job_name
<name> --job_script <path> --job_script_args "<tokens>" --template
<template> --ncpus <n> --memory <n> --ngpus <n> --walltime=<duration>
[--queue <queue>]`, with `--queue` present exactly when the queue is not
the "unset" sentinel. -/
def specCommand (s : LaunchSettings) (jobName jobScript jobScriptArgs : List Char) :
    List Char :=
  "hpc run --job_name ".toList ++
    (jobName ++ (" --job_script ".toList ++
      (jobScript ++ (" --job_script_args \"".toList ++
        (jobScriptArgs ++ ("\" --template ".toList ++
          (s.template.value ++ (" --ncpus ".toList ++
            (intChars s.ncpus ++ (" --memory ".toList ++
              (intChars s.memory ++ (" --ngpus ".toList ++
                (intChars s.ngpus ++ (" --walltime=".toList ++
                  (s.walltime ++
                    (if s.queue ≠ HPCQueue.DEFAULT then
                      " --queue ".toList ++ s.queue.value
                    else []))))))))))))))))

/-- The part of the spec command line after the job name (used to
state where the job name sits in a built command). -/
def specCommandTail (s : LaunchSettings) (jobScript jobScriptArgs : List Char) :
    List Char :=
  " --job_script ".toList ++
    (jobScript ++ (" --job_script_args \"".toList ++
      (jobScriptArgs ++ ("\" --template ".toList ++
        (s.template.value ++ (" --ncpus ".toList ++
          (intChars s.ncpus ++ (" --memory ".toList ++
            (intChars s.memory ++ (" --ngpus ".toList ++
              (intChars s.ngpus ++ (" --walltime=".toList ++
                (s.walltime ++
                  (if s.queue ≠ HPCQueue.DEFAULT then
                    " --queue ".toList ++ s.queue.value
                  else []))))))))))))))

/-! ## Response parser (launcher.py lines 189-190) -/

/-- The anchored match of `r"with ID (\d+)\."` at the start of `s`: the
literal `"with ID "`, then a non-empty maximal digit run, then a literal
`.`; returns the digit run. -/
def matchIdAt (s : List Char) : Option (List Char) :=
  if ("with ID ".toList).isPrefixOf s then
    if (s.drop 8).takeWhile Char.isDigit = [] then none
    else if ((s.drop 8).drop ((s.drop 8).takeWhile Char.isDigit).length).head? =
        some '.' then
      some ((s.drop 8).takeWhile Char.isDigit)
    else none
  else none

/-- Python `re.search`: try the anchored match at every position, left to
right, returning the first success. -/
def searchId : List Char → Option (List Char)
  | [] => none
  | c :: rest =>
    match matchIdAt (c :: rest) with
    | some ds => some ds
    | none => searchId rest

/-- The job identifier recovered from the scheduler's stdout:
the matched digit run, or the sentinel `"Failed"` when the pattern does
not occur. -/
def parseJobId (out : List Char) : List Char :=
  match searchId out with
  | some ds => ds
  | none => "Failed".toList

/-! ## Dispatch loop (launcher.py lines 78-205) -/

/-- The task function handle: `funcName = some n` models a
wrapped/partial callable whose `.func.__name__` is `n`; `none` models
the `AttributeError` fallback to the callable's own `__name__`. -/
structure TaskFn where
  funcName : Option (List Char)
  name : List Char
  deriving DecidableEq, Repr

/-- The resolved per-run configuration: an opaque resolved payload plus
the two fields the launcher stamps in place (`hydra.job.id` and
`hydra.job.num`) before persistence. -/
structure SweepConfig (B : Type) where
  base : B
  jobId : List Char
  num : Nat
  deriving DecidableEq, Repr

/-- Hydra's `JobReturn` record as the launcher constructs it. -/
structure JobRet (B : Type) where
  overrides : List (List Char)
  status : JobStatus
  cfg : SweepConfig B
  deriving DecidableEq, Repr

/-- The exceptions the loop can propagate: the `ValueError` from
splitting an `=`-less token, or the scheduler subprocess failure
(`CalledProcessError`, carrying the external error value). -/
inductive LaunchErr (E : Type) where
  | valueError
  | schedErr (e : E)
  deriving DecidableEq, Repr

/-- The launcher's surroundings: its settings, the task function, the
process entry path `sys.argv[0]`, and the three external collaborators:
path resolution, the scheduler subprocess (command string to stdout or
failure), and the config resolver (`load_sweep_config`). -/
structure LaunchEnv (B E : Type) where
  settings : LaunchSettings
  taskFn : TaskFn
  argv0 : List Char
  resolvedParentName : List Char → List Char
  sched : List Char → Except E (List Char)
  resolver : List (List Char) → B

/-- The job name for global index `j`: `f"{name}_{j}"` using the
unwrapped function name when available, else the callable's own name. -/
def jobNameOf (tf : TaskFn) (j : Int) : List Char :=
  (tf.funcName.getD tf.name) ++ '_' :: intChars j

/-- The pure pre-subprocess part of one loop iteration: job naming,
script extraction and rewrite, sanitization and command assembly.
Returns the built command and the (possibly popped) token sequence, or
`none` when sanitization raises. -/
def builtCmd (env : LaunchEnv B E) (initial : Int) (idx : Nat)
    (toks : List (List Char)) : Option (List Char × List (List Char)) :=
  let jobName := jobNameOf env.taskFn (initial + idx)
  let st := extractScript env.argv0 toks
  let script := binRewrite env.settings.packageManager env.resolvedParentName st.1
  match sanitizeOverrides st.2 with
  | none => none
  | some ov => some (buildCommand env.settings jobName script (joinSp ov), st.2)

/-- One full loop iteration: build the command, invoke the scheduler,
parse the job id, resolve and stamp the configuration, and produce the
`JobReturn`. Returns the result, the final token sequence and the
invoked command. -/
def processOne (env : LaunchEnv B E) (initial : Int) (idx : Nat)
    (toks : List (List Char)) :
    Except (LaunchErr E) (JobRet B × List (List Char) × List Char) :=
  match builtCmd env initial idx toks with
  | none => .error .valueError
  | some (cmd, toks') =>
    match env.sched cmd with
    | .error e => .error (.schedErr e)
    | .ok out =>
      .ok (⟨toks', .COMPLETED, ⟨env.resolver toks', parseJobId out, idx⟩⟩, toks', cmd)

/-- The observable outcome of a successful `launch` call: the returned
results, the caller's token sequences as they stand afterwards (the
source pops script tokens in place), and the commands invoked. -/
structure LaunchOk (B : Type) where
  results : List (JobRet B)
  finalOverrides : List (List (List Char))
  commands : List (List Char)
  deriving DecidableEq, Repr

/-- The dispatch loop from position `idx`: strict input order, one
result per run; an exception aborts the whole call, carrying the
results accumulated before the failing run (the Python local
`results`). -/
def launchLoop (env : LaunchEnv B E) (initial : Int) :
    Nat → List (List (List Char)) →
    Except (LaunchErr E × List (JobRet B)) (LaunchOk B)
  | _, [] => .ok ⟨[], [], []⟩
  | idx, toks :: rest =>
    match processOne env initial idx toks with
    | .error e => .error (e, [])
    | .ok (ret, toks', cmd) =>
      match launchLoop env initial (idx + 1) rest with
      | .error (e, prior) => .error (e, ret :: prior)
      | .ok out => .ok ⟨ret :: out.results, toks' :: out.finalOverrides, cmd :: out.commands⟩

/-- The full `HPCSubmissionLauncher.launch(job_overrides, initial_job_idx)`. -/
def launchFull (env : LaunchEnv B E) (batch : List (List (List Char)))
    (initial : Int) : Except (LaunchErr E × List (JobRet B)) (LaunchOk B) :=
  launchLoop env initial 0 batch

/-! ## Spec-side descriptions, used to compare the code against the
spec's wording -/

/-- The four characters the spec calls out for escaping. -/
def isBracket (c : Char) : Bool :=
  c = '(' || c = ')' || c = lbrace || c = rbrace

/-- Modelled from the spec's escaping rules, as a single per-character
map: backslashes are stripped, `(`, `)`, `{`, `}` gain a preceding
backslash, `$` becomes four backslashes and a `$`, every other
character is kept unchanged. -/
def specEscapeChar (c : Char) : List Char :=
  if c = '\\' then []
  else if c = '(' then ['\\', '(']
  else if c = ')' then ['\\', ')']
  else if c = lbrace then ['\\', lbrace]
  else if c = rbrace then ['\\', rbrace]
  else if c = '$' then ['\\', '\\', '\\', '\\', '$']
  else [c]

/-- The chain of unconditional single-character replacements the
escaping pipeline reduces to. -/
def chainEscape (v : List Char) : List Char :=
  replaceC '$' ['\\', '\\', '\\', '\\', '$']
    (replaceC rbrace ['\\', rbrace]
      (replaceC lbrace ['\\', lbrace]
        (replaceC ')' ['\\', ')']
          (replaceC '(' ['\\', '(']
            (replaceC '\\' [] v)))))

/-- Every bracket character in the string is immediately preceded by a
backslash. -/
def bracketsEscaped : List Char → Bool
  | [] => true
  | [c] => !isBracket c
  | c1 :: c2 :: rest =>
    if c1 = '\\' && isBracket c2 then bracketsEscaped rest
    else if isBracket c1 then false
    else bracketsEscaped (c2 :: rest)

/-- The routing of a token to the task-override list: the emitted task
token, when the sanitizer emits one. -/
def taskOut (tok : List Char) : Option (List Char) :=
  match sanitizeToken tok with
  | some (.task t) => some t
  | _ => none

/-- The routing of a token to the launch-override accumulator: the
emitted launch token, when the sanitizer emits one. -/
def launchOut (tok : List Char) : Option (List Char) :=
  match sanitizeToken tok with
  | some (.launchOv l) => some l
  | _ => none

/-- The stdout text contains an occurrence of the pattern
`with ID (\d+)\.`: some position is followed by the literal
`"with ID "`, a non-empty digit run `d` and a literal dot. -/
def hasIdPattern (out : List Char) : Prop :=
  ∃ pre d post, out = pre ++ "with ID ".toList ++ d ++ '.' :: post ∧
    d ≠ [] ∧ ∀ c ∈ d, c.isDigit = true

/-! ## Concrete fixtures for witnesses and counterexamples -/

/-- The launcher's construction-time defaults
(`HPCSubmissionLauncher.__init__`). -/
def settings0 : LaunchSettings :=
  ⟨.DSML, 2, 16, 1, "-1:00:00".toList, .RTX6000, .UV⟩

/-- A concrete environment whose scheduler succeeds and reports job id
7. -/
def env0 : LaunchEnv Unit Unit where
  settings := settings0
  taskFn := ⟨none, "f".toList⟩
  argv0 := "main.py".toList
  resolvedParentName := fun _ => "app".toList
  sched := fun _ => .ok "Job submitted with ID 7.\n".toList
  resolver := fun _ => ()

/-- A concrete environment whose scheduler always exits non-zero. -/
def envFail : LaunchEnv Unit Unit :=
  { env0 with sched := fun _ => .error () }

/-! ## Helper lemmas -/

theorem replaceC_eq_self {c : Char} {l : List Char} (h : l.contains c = false)
    (rep : List Char) : replaceC c rep l = l := by
  induction l with
  | nil => rfl
  | cons x xs ih =>
    simp only [List.contains_cons, Bool.or_eq_false_iff] at h
    have hx : x ≠ c := by
      intro he; subst he; simp at h
    simp only [replaceC, List.flatMap_cons, if_neg hx]
    have := ih (by simpa using h.2)
    simp only [replaceC] at this
    simp [this]

theorem ite_replaceC (c : Char) (rep : List Char) (l : List Char) :
    (if l.contains c then replaceC c rep l else l) = replaceC c rep l := by
  by_cases h : l.contains c = true
  · rw [if_pos h]
  · simp only [Bool.not_eq_true] at h
    rw [if_neg (by simpa using h), replaceC_eq_self h]

theorem escapeValue_eq_chain (v : List Char) : escapeValue v = chainEscape v := by
  simp only [escapeValue, chainEscape, ite_replaceC]

theorem replaceC_append (c : Char) (rep : List Char) (l1 l2 : List Char) :
    replaceC c rep (l1 ++ l2) = replaceC c rep l1 ++ replaceC c rep l2 :=
  List.flatMap_append l1 l2 _

theorem chainEscape_cons (c : Char) (v : List Char) :
    chainEscape (c :: v) = specEscapeChar c ++ chainEscape v := by
  have h1 : replaceC '\\' [] (c :: v) =
      (if c = '\\' then [] else [c]) ++ replaceC '\\' [] v := rfl
  simp only [chainEscape, h1, replaceC_append]
  by_cases h : c = '\\'
  · subst h; simp [specEscapeChar, replaceC]
  · by_cases h2 : c = '('
    · subst h2; simp [specEscapeChar, replaceC, lbrace, rbrace]
    · by_cases h3 : c = ')'
      · subst h3; simp [specEscapeChar, replaceC, lbrace, rbrace]
      · by_cases h4 : c = lbrace
        · subst h4; simp [specEscapeChar, replaceC, lbrace, rbrace]
        · by_cases h5 : c = rbrace
          · subst h5; simp [specEscapeChar, replaceC, lbrace, rbrace]
          · by_cases h6 : c = '$'
            · subst h6; simp [specEscapeChar, replaceC, lbrace, rbrace]
            · simp [specEscapeChar, replaceC, h, h2, h3, h4, h5, h6]

theorem escapeValue_eq_flatMap (v : List Char) :
    escapeValue v = v.flatMap specEscapeChar := by
  rw [escapeValue_eq_chain]
  induction v with
  | nil => rfl
  | cons c v ih => rw [chainEscape_cons, ih]; rfl

theorem bracketsEscaped_piece (c : Char) (rest : List Char) :
    bracketsEscaped (specEscapeChar c ++ rest) = bracketsEscaped rest := by
  by_cases h : c = '\\'
  · subst h; simp [specEscapeChar]
  · by_cases h2 : c = '('
    · subst h2; simp [specEscapeChar, bracketsEscaped, isBracket]
    · by_cases h3 : c = ')'
      · subst h3; simp [specEscapeChar, bracketsEscaped, isBracket]
      · by_cases h4 : c = lbrace
        · subst h4; simp [specEscapeChar, bracketsEscaped, isBracket, lbrace, rbrace]
        · by_cases h5 : c = rbrace
          · subst h5; simp [specEscapeChar, bracketsEscaped, isBracket, lbrace, rbrace]
          · by_cases h6 : c = '$'
            · subst h6
              cases rest with
              | nil => simp [specEscapeChar, bracketsEscaped, isBracket, lbrace, rbrace]
              | cons r rr =>
                simp [specEscapeChar, bracketsEscaped, isBracket, lbrace, rbrace]
            · have hb : isBracket c = false := by
                simp [isBracket, h2, h3, h4, h5]
              have hc : specEscapeChar c = [c] := by
                simp [specEscapeChar, h, h2, h3, h4, h5, h6]
              rw [hc]
              cases rest with
              | nil => simp [bracketsEscaped, hb]
              | cons r rr =>
                simp only [List.cons_append, List.nil_append, bracketsEscaped]
                rw [if_neg (by simp [h, hb]), if_neg (by simp [hb])]

theorem bracketsEscaped_flatMap (v : List Char) :
    bracketsEscaped (v.flatMap specEscapeChar) = true := by
  induction v with
  | nil => rfl
  | cons c v ih => rw [List.flatMap_cons, bracketsEscaped_piece, ih]

theorem dropWhile_append_eq {key : List Char} (val : List Char)
    (hk : ∀ c ∈ key, c ≠ '=') :
    (key ++ '=' :: val).dropWhile (· ≠ '=') = '=' :: val := by
  induction key with
  | nil =>
    rw [List.nil_append, List.dropWhile_cons, if_neg (by simp)]
  | cons c k ih =>
    rw [List.cons_append, List.dropWhile_cons,
      if_pos (by simp [hk c (by simp)]),
      ih (fun c2 hc2 => hk c2 (by simp [hc2]))]

theorem takeWhile_append_eq {key : List Char} (val : List Char)
    (hk : ∀ c ∈ key, c ≠ '=') :
    (key ++ '=' :: val).takeWhile (· ≠ '=') = key := by
  induction key with
  | nil =>
    rw [List.nil_append, List.takeWhile_cons, if_neg (by simp)]
  | cons c k ih =>
    rw [List.cons_append, List.takeWhile_cons,
      if_pos (by simp [hk c (by simp)]),
      ih (fun c2 hc2 => hk c2 (by simp [hc2]))]

theorem splitFirstEq_append {key : List Char} (val : List Char)
    (hk : key.contains '=' = false) :
    splitFirstEq (key ++ '=' :: val) = some (key, val) := by
  have hnm : '=' ∉ key := by simpa using hk
  have hk2 : ∀ c ∈ key, c ≠ '=' := fun c hc he => hnm (he ▸ hc)
  unfold splitFirstEq
  rw [dropWhile_append_eq val hk2, takeWhile_append_eq val hk2]

theorem splitFirstEq_eq_none {tok : List Char} (h : tok.contains '=' = false) :
    splitFirstEq tok = none := by
  have hd : tok.dropWhile (· ≠ '=') = [] := by
    rw [List.dropWhile_eq_nil_iff]
    intro x hx
    simp only [ne_eq, decide_eq_true_eq]
    intro he; subst he
    have : tok.contains '=' = true := by
      simpa [List.elem_iff] using hx
    rw [this] at h; cases h
  unfold splitFirstEq
  rw [hd]

theorem splitFirstEq_isSome_of_contains {tok : List Char}
    (h : tok.contains '=' = true) : (splitFirstEq tok).isSome = true := by
  have hm : '=' ∈ tok := by simpa [List.elem_iff] using h
  have hne : tok.dropWhile (· ≠ '=') ≠ [] := by
    intro hnil
    rw [List.dropWhile_eq_nil_iff] at hnil
    have := hnil '=' hm
    simp at this
  unfold splitFirstEq
  cases hd : tok.dropWhile (· ≠ '=') with
  | nil => exact absurd hd hne
  | cons x rest => rfl

/-- C8: a token containing none of `\`, `$`, `+launch` is emitted
unchanged and routed to the task-override list. -/
theorem sanitizer_passthrough (tok : List Char)
    (h1 : tok.contains '\\' = false) (h2 : tok.contains '$' = false)
    (h3 : containsSub plusLaunch tok = false) :
    sanitizeToken tok = some (.task tok) := by
  unfold sanitizeToken
  rw [if_pos ⟨h1, h2, h3⟩]

/-- Witness for C8 at the token `lr=0.01`. -/
theorem sanitizer_passthrough_witness :
    sanitizeToken ("lr=0.01".toList) = some (.task ("lr=0.01".toList)) :=
  sanitizer_passthrough _ (by decide) (by decide) (by decide)

theorem sanitizeToken_isSome {tok : List Char}
    (h : ¬ (tok.contains '\\' = false ∧ tok.contains '$' = false ∧
        containsSub plusLaunch tok = false) → tok.contains '=' = true) :
    (sanitizeToken tok).isSome = true := by
  unfold sanitizeToken
  by_cases hc : tok.contains '\\' = false ∧ tok.contains '$' = false ∧
      containsSub plusLaunch tok = false
  · rw [if_pos hc]; rfl
  · rw [if_neg hc]
    have hs := splitFirstEq_isSome_of_contains (h hc)
    cases hd : splitFirstEq tok with
    | none => rw [hd] at hs; simp at hs
    | some kv =>
      obtain ⟨k, v⟩ := kv
      by_cases hk : containsSub plusLaunch k = true <;> simp [hk]

theorem sanitizeSplit_isSome {toks : List (List Char)}
    (h : ∀ tok ∈ toks,
      ¬ (tok.contains '\\' = false ∧ tok.contains '$' = false ∧
          containsSub plusLaunch tok = false) → tok.contains '=' = true) :
    (sanitizeSplit toks).isSome = true := by
  induction toks with
  | nil => rfl
  | cons t rest ih =>
    have ht := sanitizeToken_isSome (h t (by simp))
    have hr := ih (fun tok hm => h tok (by simp [hm]))
    unfold sanitizeSplit
    cases hst : sanitizeToken t with
    | none => rw [hst] at ht; simp at ht
    | some r =>
      cases hsr : sanitizeSplit rest with
      | none => rw [hsr] at hr; simp at hr
      | some p =>
        obtain ⟨ts, ls⟩ := p
        cases r <;> simp

/-- C10: a token that triggers the rewrite path (it contains `\`, `$`
or `+launch`) but has no `=` makes the sanitization step fail (the
Python two-name unpacking of `split("=", 1)` raises `ValueError`);
when every trigger token contains at least one `=`, sanitization of the
whole batch succeeds and the error branch is unreachable. -/
theorem sanitize_missing_eq_fails :
    (∀ tok : List Char,
      ¬ (tok.contains '\\' = false ∧ tok.contains '$' = false ∧
          containsSub plusLaunch tok = false) →
      tok.contains '=' = false → sanitizeToken tok = none)
    ∧ (∀ toks : List (List Char),
      (∀ tok ∈ toks,
        ¬ (tok.contains '\\' = false ∧ tok.contains '$' = false ∧
            containsSub plusLaunch tok = false) → tok.contains '=' = true) →
      (sanitizeOverrides toks).isSome = true) := by
  constructor
  · intro tok htrig heq
    unfold sanitizeToken
    rw [if_neg htrig, splitFirstEq_eq_none heq]
  · intro toks h
    have := sanitizeSplit_isSome h
    unfold sanitizeOverrides
    cases hd : sanitizeSplit toks with
    | none => rw [hd] at this; simp at this
    | some p => simp

/-- Witness for C10: the token `$x` (trigger, no `=`) raises, and the
batch `["a=1", "$b=2"]` sanitizes successfully. -/
theorem sanitize_missing_eq_fails_witness :
    sanitizeToken ("$x".toList) = none ∧
    (sanitizeOverrides ["a=1".toList, "$b=2".toList]).isSome = true := by
  constructor
  · exact sanitize_missing_eq_fails.1 ("$x".toList) (by decide) (by decide)
  · exact sanitize_missing_eq_fails.2 ["a=1".toList, "$b=2".toList] (by decide)

/-- C1 fails as stated: the task override `a=(b)` has a parenthesized
value but contains none of `\`, `$`, `+launch`, so the sanitizer emits
it unchanged — its `(` and `)` are not escaped. -/
theorem task_value_escaping_cex :
    sanitizeToken ("a=(b)".toList) = some (.task ("a=(b)".toList)) ∧
    bracketsEscaped ("a=(b)".toList) = false := by decide

/-- C1 (amended): only a `key=value` token containing `\`, `$` or
`+launch` is rewritten; for such a token routed to the task list, the
output is `key=\"v\"` where `v` is the value with every `(`, `)`, `{`,
`}` escaped by a preceding backslash, backslashes stripped, `$`
replaced by `\\\\$`, and every other character kept unchanged in
order. -/
theorem task_value_escaping (key val : List Char)
    (hkey : key.contains '=' = false)
    (hkl : containsSub plusLaunch key = false)
    (htrig : ¬ ((key ++ '=' :: val).contains '\\' = false ∧
        (key ++ '=' :: val).contains '$' = false ∧
        containsSub plusLaunch (key ++ '=' :: val) = false)) :
    sanitizeToken (key ++ '=' :: val) =
      some (.task (key ++ escQuote (escapeValue val)))
    ∧ escapeValue val = val.flatMap specEscapeChar
    ∧ bracketsEscaped (escapeValue val) = true := by
  refine ⟨?_, escapeValue_eq_flatMap val, ?_⟩
  · unfold sanitizeToken
    rw [if_neg htrig]
    simp only [splitFirstEq_append val hkey]
    rw [if_neg (by simp [hkl])]
  · rw [escapeValue_eq_flatMap]
    exact bracketsEscaped_flatMap val

/-- Witness for C1 at key `a`, value `(b)$`. -/
theorem task_value_escaping_witness :
    sanitizeToken ("a".toList ++ '=' :: "(b)$".toList) =
      some (.task ("a".toList ++ escQuote (escapeValue "(b)$".toList)))
    ∧ escapeValue "(b)$".toList = ("(b)$".toList).flatMap specEscapeChar
    ∧ bracketsEscaped (escapeValue "(b)$".toList) = true :=
  task_value_escaping _ _ (by decide) (by decide) (by decide)

theorem sanitizeSplit_parts {toks : List (List Char)} :
    ∀ {ts ls}, sanitizeSplit toks = some (ts, ls) →
      ts = toks.filterMap taskOut ∧ ls = toks.filterMap launchOut := by
  induction toks with
  | nil =>
    intro ts ls h
    unfold sanitizeSplit at h
    simp only [Option.some.injEq, Prod.mk.injEq] at h
    simp [← h.1, ← h.2]
  | cons t rest ih =>
    intro ts ls h
    unfold sanitizeSplit at h
    cases hst : sanitizeToken t with
    | none => rw [hst] at h; cases h
    | some r =>
      rw [hst] at h
      cases hsr : sanitizeSplit rest with
      | none =>
        rw [hsr] at h
        cases r <;> cases h
      | some p =>
        rw [hsr] at h
        obtain ⟨ts', ls'⟩ := p
        obtain ⟨hts', hls'⟩ := ih hsr
        cases r with
        | task tt =>
          simp only [Option.some.injEq, Prod.mk.injEq] at h
          have h1 : taskOut t = some tt := by unfold taskOut; rw [hst]
          have h2 : launchOut t = none := by unfold launchOut; rw [hst]
          rw [List.filterMap_cons_some h1, List.filterMap_cons_none h2]
          exact ⟨by rw [← h.1, hts'], by rw [← h.2, hls']⟩
        | launchOv lt =>
          simp only [Option.some.injEq, Prod.mk.injEq] at h
          have h1 : taskOut t = none := by unfold taskOut; rw [hst]
          have h2 : launchOut t = some lt := by unfold launchOut; rw [hst]
          rw [List.filterMap_cons_none h1, List.filterMap_cons_some h2]
          exact ⟨by rw [← h.1, hts'], by rw [← h.2, hls']⟩

/-- C3: the sanitizer's task list and launch accumulator collect, in
encounter order, exactly the tokens routed to each; the final sequence
is the task list alone when no launch override was routed, and the task
list followed by `--` and the launch overrides otherwise; a launch
override was routed iff some token routes to the accumulator. -/
theorem separator_appended_iff (toks ts ls : List (List Char))
    (h : sanitizeSplit toks = some (ts, ls)) :
    ts = toks.filterMap taskOut ∧ ls = toks.filterMap launchOut ∧
    (ls = [] → sanitizeOverrides toks = some ts) ∧
    (ls ≠ [] → sanitizeOverrides toks = some (ts ++ "--".toList :: ls)) ∧
    (ls ≠ [] ↔ ∃ tok ∈ toks, (launchOut tok).isSome = true) := by
  obtain ⟨h1, h2⟩ := sanitizeSplit_parts h
  refine ⟨h1, h2, ?_, ?_, ?_⟩
  · intro hls
    unfold sanitizeOverrides
    rw [h, hls]
    rfl
  · intro hls
    unfold sanitizeOverrides
    rw [h]
    simp [List.isEmpty_iff, hls]
  · rw [h2]
    simp only [ne_eq, List.filterMap_eq_nil_iff, Option.isSome_iff_ne_none]
    push_neg
    constructor
    · rintro ⟨tok, hm, hne⟩; exact ⟨tok, hm, hne⟩
    · rintro ⟨tok, hm, hne⟩; exact ⟨tok, hm, hne⟩

/-- Witness for C3 at the batch `["a=1", "+launch.x=1"]`. -/
theorem separator_appended_iff_witness :
    ["a=1".toList] = (["a=1".toList, "+launch.x=1".toList]).filterMap taskOut ∧
    ["x=\\\"1\\\"".toList] =
      (["a=1".toList, "+launch.x=1".toList]).filterMap launchOut ∧
    (["x=\\\"1\\\"".toList] = [] →
      sanitizeOverrides ["a=1".toList, "+launch.x=1".toList] = some ["a=1".toList]) ∧
    (["x=\\\"1\\\"".toList] ≠ [] →
      sanitizeOverrides ["a=1".toList, "+launch.x=1".toList] =
        some (["a=1".toList] ++ "--".toList :: ["x=\\\"1\\\"".toList])) ∧
    (["x=\\\"1\\\"".toList] ≠ [] ↔
      ∃ tok ∈ ["a=1".toList, "+launch.x=1".toList], (launchOut tok).isSome = true) :=
  separator_appended_iff _ _ _ (by decide)

theorem extractScript_no_script {argv0 : List Char} {toks : List (List Char)}
    (h : ∀ t ∈ toks, containsSub scriptPat t = false) :
    extractScript argv0 toks = (argv0, toks) := by
  unfold extractScript
  rw [List.find?_eq_none.mpr (fun t ht => by simp [h t ht])]

theorem removeFirst_append {p : List Char → Bool} {pre : List (List Char)}
    {t : List Char} {post : List (List Char)}
    (hpre : ∀ t2 ∈ pre, p t2 = false) (ht : p t = true) :
    removeFirst p (pre ++ t :: post) = pre ++ post := by
  induction pre with
  | nil =>
    rw [List.nil_append, List.nil_append]
    unfold removeFirst
    rw [if_pos ht]
  | cons q pre' ih =>
    rw [List.cons_append, List.cons_append]
    unfold removeFirst
    rw [if_neg (by simp [hpre q (by simp)]),
      ih (fun t2 h2 => hpre t2 (by simp [h2]))]

theorem extractScript_first {argv0 t : List Char} {pre post : List (List Char)}
    (hpre : ∀ t2 ∈ pre, containsSub scriptPat t2 = false)
    (ht : containsSub scriptPat t = true) :
    extractScript argv0 (pre ++ t :: post) = (afterFirstEq t, pre ++ post) := by
  unfold extractScript
  have hfind : (pre ++ t :: post).find? (fun t2 => containsSub scriptPat t2) = some t := by
    induction pre with
    | nil => rw [List.nil_append, List.find?_cons_of_pos _ ht]
    | cons q pre' ih =>
      rw [List.cons_append, List.find?_cons_of_neg _ (by simp [hpre q (by simp)]),
        ih (fun t2 h2 => hpre t2 (by simp [h2]))]
  rw [hfind, removeFirst_append hpre ht]

set_option maxRecDepth 8192 in
/-- C7: the script defaults to the process entry path; when a token
containing `+launch.script=` is present, the (first) such token's
text after its first `=` becomes the script and that token is removed
before sanitization; an extensionless script whose resolved parent
directory is `bin` is rewritten to `{package_manager}:{basename}`; and
in the end-to-end scenario the stripped token does not reach
`--job_script_args`. -/
theorem script_determination :
    (∀ (argv0 : List Char) (toks : List (List Char)),
      (∀ t ∈ toks, containsSub scriptPat t = false) →
      extractScript argv0 toks = (argv0, toks))
    ∧ (∀ (argv0 t : List Char) (pre post : List (List Char)),
      (∀ t2 ∈ pre, containsSub scriptPat t2 = false) →
      containsSub scriptPat t = true →
      extractScript argv0 (pre ++ t :: post) = (afterFirstEq t, pre ++ post))
    ∧ (∀ (pm : PackageManager) (rpn : List Char → List Char) (script : List Char),
      pathSuffix script = [] → rpn script = "bin".toList →
      binRewrite pm rpn script = pm.value ++ ':' :: pathName script)
    ∧ (∀ (pm : PackageManager) (rpn : List Char → List Char) (script : List Char),
      ¬ (pathSuffix script = [] ∧ rpn script = "bin".toList) →
      binRewrite pm rpn script = script)
    ∧ builtCmd env0 0 0 ["lr=0.01".toList, "+launch.script=/tmp/run.sh".toList] =
        some ("hpc run --job_name f_0 --job_script /tmp/run.sh --job_script_args \"lr=0.01\" --template RTX6000 --ncpus 2 --memory 16 --ngpus 1 --walltime=-1:00:00 --queue DSML".toList,
          ["lr=0.01".toList])
    ∧ containsSub "+launch.script".toList
        "hpc run --job_name f_0 --job_script /tmp/run.sh --job_script_args \"lr=0.01\" --template RTX6000 --ncpus 2 --memory 16 --ngpus 1 --walltime=-1:00:00 --queue DSML".toList
      = false := by
  refine ⟨?_, ?_, ?_, ?_, by decide, by decide⟩
  · intro argv0 toks h
    exact extractScript_no_script h
  · intro argv0 t pre post hpre ht
    exact extractScript_first hpre ht
  · intro pm rpn script h1 h2
    unfold binRewrite
    rw [if_pos ⟨h1, h2⟩]
  · intro pm rpn script h
    unfold binRewrite
    rw [if_neg h]

/-- Witness for C7: the first `+launch.script=` token provides the
script path and is removed; a `bin`-resident extensionless script is
rewritten through the package manager. -/
theorem script_determination_witness :
    extractScript "m.py".toList (["a=1".toList] ++ "+launch.script=/x/y".toList :: []) =
      (afterFirstEq "+launch.script=/x/y".toList, ["a=1".toList] ++ []) ∧
    binRewrite PackageManager.UV (fun _ => "bin".toList) "/v/bin/tool".toList =
      PackageManager.UV.value ++ ':' :: pathName "/v/bin/tool".toList := by
  constructor
  · exact script_determination.2.1 _ _ _ _ (by decide) (by decide)
  · exact script_determination.2.2.1 _ _ _ (by decide) (by decide)

theorem buildCommand_eq_spec (s : LaunchSettings) (jobName jobScript jobScriptArgs : List Char) :
    buildCommand s jobName jobScript jobScriptArgs =
      specCommand s jobName jobScript jobScriptArgs := by
  obtain ⟨q, nc, mem, ng, w, tpl, pm⟩ := s
  cases q <;>
    (simp [buildCommand, launchCommandList, joinSp, specCommand,
      List.append_assoc]; try rfl)

theorem specCommand_name_tail (s : LaunchSettings) (jobName jobScript jobScriptArgs : List Char) :
    specCommand s jobName jobScript jobScriptArgs =
      "hpc run --job_name ".toList ++
        (jobName ++ specCommandTail s jobScript jobScriptArgs) := rfl

theorem buildCommand_name_shape (s : LaunchSettings) (tf : TaskFn) (j : Int)
    (jobScript jobScriptArgs : List Char) :
    buildCommand s (jobNameOf tf j) jobScript jobScriptArgs =
      "hpc run --job_name ".toList ++
        ((tf.funcName.getD tf.name) ++
          ('_' :: (intChars j ++ specCommandTail s jobScript jobScriptArgs))) := by
  rw [buildCommand_eq_spec, specCommand_name_tail, jobNameOf]
  simp [List.append_assoc]

/-- C4: the built command string is exactly the spec's space-joined
template, `--walltime=<duration>` is a single piece with no space, and
a piece starting with `--queue` occurs exactly once when the queue is
set and not at all when it is the unset sentinel. -/
theorem command_shape (s : LaunchSettings) (jobName jobScript jobScriptArgs : List Char) :
    buildCommand s jobName jobScript jobScriptArgs =
      specCommand s jobName jobScript jobScriptArgs
    ∧ (launchCommandList s jobName jobScript jobScriptArgs).countP
        (fun e => ("--queue".toList).isPrefixOf e) =
      (if s.queue = HPCQueue.DEFAULT then 0 else 1)
    ∧ ("--walltime=".toList ++ s.walltime) ∈
        launchCommandList s jobName jobScript jobScriptArgs := by
  refine ⟨buildCommand_eq_spec s jobName jobScript jobScriptArgs, ?_, ?_⟩
  · obtain ⟨q, nc, mem, ng, w, tpl, pm⟩ := s
    cases q <;> rfl
  · obtain ⟨q, nc, mem, ng, w, tpl, pm⟩ := s
    cases q <;> simp [launchCommandList]

theorem drop_takeWhile_length (p : Char → Bool) :
    ∀ l : List Char, l.drop (l.takeWhile p).length = l.dropWhile p := by
  intro l
  induction l with
  | nil => rfl
  | cons c l ih =>
    rw [List.takeWhile_cons, List.dropWhile_cons]
    by_cases hp : p c = true
    · rw [if_pos hp, if_pos hp, List.length_cons, List.drop_succ_cons, ih]
    · rw [if_neg hp, if_neg hp, List.length_nil, List.drop_zero]

theorem takeWhile_all_append {p : Char → Bool} {d : List Char}
    (hall : ∀ c ∈ d, p c = true) {x : Char} (t : List Char) (hx : p x = false) :
    (d ++ x :: t).takeWhile p = d := by
  induction d with
  | nil => rw [List.nil_append, List.takeWhile_cons, if_neg (by simp [hx])]
  | cons c dd ih =>
    rw [List.cons_append, List.takeWhile_cons, if_pos (hall c (by simp)),
      ih (fun c2 h2 => hall c2 (by simp [h2]))]

theorem matchIdAt_sound {s ds : List Char} (h : matchIdAt s = some ds) :
    (∃ post, s = "with ID ".toList ++ (ds ++ '.' :: post)) ∧ ds ≠ [] ∧
      ∀ c ∈ ds, c.isDigit = true := by
  unfold matchIdAt at h
  by_cases hp : ("with ID ".toList).isPrefixOf s = true
  · rw [if_pos hp] at h
    by_cases hemp : (s.drop 8).takeWhile Char.isDigit = []
    · rw [if_pos hemp] at h; cases h
    · rw [if_neg hemp] at h
      by_cases hhead : ((s.drop 8).drop ((s.drop 8).takeWhile Char.isDigit).length).head? =
          some '.'
      · rw [if_pos hhead] at h
        simp only [Option.some.injEq] at h
        subst h
        obtain ⟨t, ht⟩ : ∃ t, "with ID ".toList ++ t = s :=
          List.isPrefixOf_iff_prefix.mp hp
        have hdrop : s.drop 8 = t := by
          rw [← ht, show (8 : Nat) = ("with ID ".toList).length from rfl, List.drop_left]
        rw [hdrop] at hemp hhead ⊢
        rw [drop_takeWhile_length] at hhead
        cases hdw : t.dropWhile Char.isDigit with
        | nil => rw [hdw] at hhead; cases hhead
        | cons x tail =>
          rw [hdw] at hhead
          simp only [List.head?_cons, Option.some.injEq] at hhead
          subst hhead
          refine ⟨⟨tail, ?_⟩, hemp, fun c hc => List.mem_takeWhile_imp hc⟩
          rw [← ht]
          congr 1
          conv_lhs => rw [← List.takeWhile_append_dropWhile (p := Char.isDigit) (l := t)]
          rw [hdw]
      · rw [if_neg hhead] at h; cases h
  · rw [if_neg hp] at h; cases h

theorem matchIdAt_complete {d : List Char} (post : List Char) (hne : d ≠ [])
    (hdig : ∀ c ∈ d, c.isDigit = true) :
    matchIdAt ("with ID ".toList ++ (d ++ '.' :: post)) = some d := by
  unfold matchIdAt
  rw [if_pos ( List.isPrefixOf_iff_prefix.mpr ⟨_, rfl⟩)]
  have hdrop : ("with ID ".toList ++ (d ++ '.' :: post)).drop 8 = d ++ '.' :: post := by
    rw [show (8 : Nat) = ("with ID ".toList).length from rfl, List.drop_left]
  rw [hdrop, takeWhile_all_append hdig post (by decide)]
  rw [if_neg hne, List.drop_left, List.head?_cons, if_pos rfl]

theorem searchId_sound {out : List Char} :
    ∀ {ds}, searchId out = some ds →
      (∃ pre post, out = pre ++ ("with ID ".toList ++ (ds ++ '.' :: post))) ∧
      ds ≠ [] ∧ ∀ c ∈ ds, c.isDigit = true := by
  induction out with
  | nil => intro ds h; cases h
  | cons c rest ih =>
    intro ds h
    unfold searchId at h
    cases hm : matchIdAt (c :: rest) with
    | some ds' =>
      rw [hm] at h
      simp only [Option.some.injEq] at h
      subst h
      obtain ⟨⟨post, hdec⟩, hne, hdig⟩ := matchIdAt_sound hm
      exact ⟨⟨[], post, by rw [List.nil_append, hdec]⟩, hne, hdig⟩
    | none =>
      rw [hm] at h
      obtain ⟨⟨pre, post, hdec⟩, hne, hdig⟩ := ih h
      exact ⟨⟨c :: pre, post, by rw [hdec, List.cons_append]⟩, hne, hdig⟩

theorem searchId_complete :
    ∀ (pre : List Char) {d : List Char} (post : List Char), d ≠ [] →
      (∀ c ∈ d, c.isDigit = true) →
      (searchId (pre ++ ("with ID ".toList ++ (d ++ '.' :: post)))).isSome = true := by
  intro pre
  induction pre with
  | nil =>
    intro d post hne hdig
    rw [List.nil_append]
    have hcons : "with ID ".toList ++ (d ++ '.' :: post) =
        'w' :: ("ith ID ".toList ++ (d ++ '.' :: post)) := rfl
    rw [hcons]
    unfold searchId
    rw [show matchIdAt ('w' :: ("ith ID ".toList ++ (d ++ '.' :: post))) = some d from by
      rw [← hcons]; exact matchIdAt_complete post hne hdig]
    rfl
  | cons c pre' ih =>
    intro d post hne hdig
    rw [List.cons_append]
    unfold searchId
    cases hm : matchIdAt (c :: (pre' ++ ("with ID ".toList ++ (d ++ '.' :: post)))) with
    | some ds => rfl
    | none => exact ih post hne hdig

/-- C5: the response parser returns the digit run of the first
occurrence of the pattern `with ID (\d+)\.` in the scheduler's stdout,
and the sentinel `Failed` exactly when the pattern does not occur; the
two spec examples evaluate as stated; and a dispatched run is always
recorded with status `COMPLETED`, whatever the job id parsed to. -/
theorem response_parsing :
    (∀ out : List Char, ¬ hasIdPattern out → parseJobId out = "Failed".toList)
    ∧ (∀ out ds : List Char, searchId out = some ds →
        parseJobId out = ds ∧
        (∃ pre post, out = pre ++ ("with ID ".toList ++ (ds ++ '.' :: post))) ∧
        ds ≠ [] ∧ ∀ c ∈ ds, c.isDigit = true)
    ∧ (∀ out : List Char, hasIdPattern out → (searchId out).isSome = true)
    ∧ parseJobId ("Job submitted with ID 12345.\n".toList) = "12345".toList
    ∧ parseJobId ("Submission queued\n".toList) = "Failed".toList
    ∧ (∀ (B E : Type) (env : LaunchEnv B E) (initial : Int) (idx : Nat)
        (toks : List (List Char)) r,
        processOne env initial idx toks = .ok r → r.1.status = .COMPLETED) := by
  refine ⟨?_, ?_, ?_, by decide, by decide, ?_⟩
  · intro out hpat
    cases hs : searchId out with
    | none => unfold parseJobId; rw [hs]
    | some ds =>
      obtain ⟨⟨pre, post, hdec⟩, hne, hdig⟩ := searchId_sound hs
      exact absurd ⟨pre, ds, post, by rw [hdec]; simp [List.append_assoc], hne, hdig⟩ hpat
  · intro out ds hs
    refine ⟨by unfold parseJobId; rw [hs], searchId_sound hs⟩
  · intro out hpat
    obtain ⟨pre, d, post, hdec, hne, hdig⟩ := hpat
    rw [show pre ++ "with ID ".toList ++ d ++ '.' :: post =
      pre ++ ("with ID ".toList ++ (d ++ '.' :: post)) from by
        simp [List.append_assoc]] at hdec
    rw [hdec]
    exact searchId_complete pre post hne hdig
  · intro B E env initial idx toks r h
    unfold processOne at h
    split at h
    · simp at h
    · split at h
      · simp at h
      · simp only [Except.ok.injEq] at h
        rw [← h]

/-- Witness for C5: a successful parse at a concrete stdout. -/
theorem response_parsing_witness :
    parseJobId ("x with ID 9.".toList) = "9".toList ∧
    (∃ pre post, "x with ID 9.".toList =
      pre ++ ("with ID ".toList ++ ("9".toList ++ '.' :: post))) ∧
    "9".toList ≠ [] ∧ ∀ c ∈ "9".toList, c.isDigit = true :=
  response_parsing.2.1 _ _ (by decide)

theorem processOne_ok_parts {B E : Type} {env : LaunchEnv B E} {initial : Int}
    {idx : Nat} {toks : List (List Char)} {r : JobRet B}
    {toks2 : List (List Char)} {cmd : List Char}
    (h : processOne env initial idx toks = .ok (r, toks2, cmd)) :
    toks2 = (extractScript env.argv0 toks).2 ∧ r.overrides = toks2 ∧
    ∃ script args,
      cmd = buildCommand env.settings (jobNameOf env.taskFn (initial + idx)) script args := by
  unfold processOne at h
  split at h
  · cases h
  · rename_i cmd0 toks0 heq
    split at h
    · cases h
    · rename_i out hsc
      simp only [Except.ok.injEq, Prod.mk.injEq] at h
      obtain ⟨hr, ht2, hc⟩ := h
      simp only [builtCmd] at heq
      split at heq
      · cases heq
      · rename_i ov hov
        simp only [Option.some.injEq, Prod.mk.injEq] at heq
        refine ⟨by rw [← ht2, ← heq.2], by rw [← hr, ← ht2], ?_⟩
        exact ⟨_, _, by rw [← hc, ← heq.1]⟩

theorem launchLoop_ok_spec {B E : Type} {env : LaunchEnv B E} {initial : Int} :
    ∀ {idx : Nat} {batch : List (List (List Char))} {out : LaunchOk B},
      launchLoop env initial idx batch = .ok out →
      out.results.length = batch.length ∧
      out.commands.length = batch.length ∧
      out.finalOverrides = batch.map (fun toks => (extractScript env.argv0 toks).2) ∧
      ∀ i toks, batch[i]? = some toks →
        ∃ r toks2 cmd, processOne env initial (idx + i) toks = .ok (r, toks2, cmd) ∧
          out.results[i]? = some r ∧ out.commands[i]? = some cmd := by
  intro idx batch
  induction batch generalizing idx with
  | nil =>
    intro out h
    unfold launchLoop at h
    simp only [Except.ok.injEq] at h
    subst h
    exact ⟨rfl, rfl, rfl, fun i toks hi => by simp at hi⟩
  | cons toks rest ih =>
    intro out h
    unfold launchLoop at h
    cases hpo : processOne env initial idx toks with
    | error e => rw [hpo] at h; cases h
    | ok rc =>
      obtain ⟨ret, toks', cmd⟩ := rc
      rw [hpo] at h
      cases hrec : launchLoop env initial (idx + 1) rest with
      | error ep => rw [hrec] at h; cases h
      | ok out' =>
        rw [hrec] at h
        simp only [Except.ok.injEq] at h
        subst h
        obtain ⟨hl1, hl2, hf, hidx⟩ := ih hrec
        refine ⟨by simp [hl1], by simp [hl2], ?_, ?_⟩
        · have hparts := processOne_ok_parts hpo
          simp only [List.map_cons, LaunchOk.mk.injEq]
          rw [hf, hparts.1]
        · intro i toks3 hi
          cases i with
          | zero =>
            simp only [List.getElem?_cons_zero, Option.some.injEq] at hi
            subst hi
            exact ⟨ret, toks', cmd, by rw [Nat.add_zero]; exact hpo, by simp, by simp⟩
          | succ n =>
            simp only [List.getElem?_cons_succ] at hi
            obtain ⟨r, toks2, cmd2, hp2, hr2, hc2⟩ := hidx n toks3 hi
            refine ⟨r, toks2, cmd2, ?_, by simpa using hr2, by simpa using hc2⟩
            rw [show idx + (n + 1) = (idx + 1) + n from by omega]
            exact hp2

set_option maxRecDepth 8192 in
/-- C2 fails as stated: launching with a `+launch.script=` token pops
that token from the caller's sequence in place
(`job_override.pop(...)`, launcher.py line 103), so the input token
sequence is mutated. -/
theorem run_request_immutable_cex :
    (launchFull env0 [["lr=0.01".toList, "+launch.script=/tmp/run.sh".toList]] 0).map
        (fun o => o.finalOverrides) =
      .ok [["lr=0.01".toList]] ∧
    [["lr=0.01".toList]] ≠ [["lr=0.01".toList, "+launch.script=/tmp/run.sh".toList]] := by
  constructor
  · rfl
  · decide

/-- C2 (amended): after a successful launch, each input token sequence
is unchanged unless it contained a `+launch.script=` token, in which
case exactly the first such token has been removed from it in place
before sanitization; results and requests are not otherwise mutated,
and the resolved configuration is the only object augmented (with job
id and run index). -/
theorem run_request_immutable {B E : Type} (env : LaunchEnv B E)
    (batch : List (List (List Char))) (initial : Int) (out : LaunchOk B)
    (h : launchFull env batch initial = .ok out) :
    out.finalOverrides = batch.map (fun toks => (extractScript env.argv0 toks).2) ∧
    (∀ toks : List (List Char), (∀ t ∈ toks, containsSub scriptPat t = false) →
      (extractScript env.argv0 toks).2 = toks) := by
  refine ⟨(launchLoop_ok_spec h).2.2.1, ?_⟩
  intro toks hts
  rw [extractScript_no_script hts]

/-- Witness for C2: a batch without script overrides keeps its token
sequence. -/
theorem run_request_immutable_witness :
    (extractScript env0.argv0 ["a=1".toList]).2 = ["a=1".toList] :=
  (run_request_immutable env0 [["a=1".toList]] 0 _ rfl).2 ["a=1".toList] (by decide)

theorem processOne_sched_error {B E : Type} {env : LaunchEnv B E} {initial : Int}
    {idx : Nat} {toks : List (List Char)} {cmd : List Char}
    {toks' : List (List Char)} {e : E}
    (hb : builtCmd env initial idx toks = some (cmd, toks'))
    (hs : env.sched cmd = .error e) :
    processOne env initial idx toks = .error (.schedErr e) := by
  unfold processOne
  simp only [hb, hs]

theorem launchLoop_sched_fail {B E : Type} {env : LaunchEnv B E} {initial : Int}
    {e : E} :
    ∀ (pre : List (List (List Char))) (idx : Nat) (tk : List (List Char))
      (post : List (List (List Char))),
      (∀ i toks, pre[i]? = some toks →
        (processOne env initial (idx + i) toks).isOk = true) →
      (∃ cmd toks', builtCmd env initial (idx + pre.length) tk = some (cmd, toks') ∧
        env.sched cmd = .error e) →
      ∃ prior, launchLoop env initial idx (pre ++ tk :: post) =
          .error (.schedErr e, prior) ∧ prior.length = pre.length := by
  intro pre
  induction pre with
  | nil =>
    rintro idx tk post hok ⟨cmd, toks', hb, hs⟩
    rw [List.nil_append]
    have hb0 : builtCmd env initial idx tk = some (cmd, toks') := by
      simpa using hb
    have hpo := processOne_sched_error hb0 hs
    refine ⟨[], ?_, rfl⟩
    unfold launchLoop
    simp only [hpo]
  | cons p pre' ih =>
    intro idx tk post hok hex
    rw [List.cons_append]
    have h0 : (processOne env initial idx p).isOk = true := by
      simpa using hok 0 p (by simp)
    cases hpo : processOne env initial idx p with
    | error er => rw [hpo] at h0; cases h0
    | ok rc =>
      obtain ⟨ret, toks', cmd⟩ := rc
      obtain ⟨prior', hrec, hlen⟩ := ih (idx + 1) tk post
        (fun i toks hi => by
          have := hok (i + 1) toks (by simpa using hi)
          rw [show idx + (i + 1) = (idx + 1) + i from by omega] at this
          exact this)
        (by
          obtain ⟨cmd2, toks2, hb2, hs2⟩ := hex
          refine ⟨cmd2, toks2, ?_, hs2⟩
          rw [show (idx + 1) + pre'.length = idx + (p :: pre').length from by simp; omega]
          exact hb2)
      refine ⟨ret :: prior', ?_, by simp [hlen]⟩
      unfold launchLoop
      simp only [hpo, hrec]

/-- C6: if the scheduler invocation for the run after `pre` exits
non-zero, the whole launch call fails with that error propagated; the
runs before it were each dispatched successfully and are the only ones
recorded (in the local accumulator at raise time), and no result exists
for the failing run or any later one. -/
theorem batch_fail_fast {B E : Type} (env : LaunchEnv B E) (initial : Int)
    (pre : List (List (List Char))) (tk : List (List Char))
    (post : List (List (List Char))) (e : E)
    (hok : ∀ i toks, pre[i]? = some toks →
      (processOne env initial i toks).isOk = true)
    (hfail : ∃ cmd toks', builtCmd env initial pre.length tk = some (cmd, toks') ∧
      env.sched cmd = .error e) :
    ∃ prior, launchFull env (pre ++ tk :: post) initial =
        .error (.schedErr e, prior) ∧ prior.length = pre.length := by
  have := launchLoop_sched_fail pre 0 tk post
    (fun i toks hi => by simpa using hok i toks hi)
    (by simpa using hfail)
  exact this

/-- Witness for C6: a single-run batch whose scheduler always fails. -/
theorem batch_fail_fast_witness :
    ∃ prior,
      launchFull envFail (([] : List (List (List Char))) ++ ["a=1".toList] :: []) 0 =
        .error (.schedErr (), prior) ∧
      prior.length = ([] : List (List (List Char))).length :=
  batch_fail_fast envFail 0 [] ["a=1".toList] [] ()
    (fun i toks hi => by simp at hi) ⟨_, _, rfl, rfl⟩

/-- C9: in a successful launch, the command for the run at zero-based
position `i` is a built command whose job name is exactly
`{task_function_name}_{initial_job_idx + i}` (the unwrapped
`.func.__name__` when the callable is wrapped, its own `__name__`
otherwise); expanded, the command is the job-name position of the
template followed by that exact name and then the command tail, which
begins with a space, so the digit run is exactly `initial + i`; the
recorded result carries the input token sequence with the stripped
script token removed. -/
theorem job_naming {B E : Type} (env : LaunchEnv B E)
    (batch : List (List (List Char))) (initial : Int) (out : LaunchOk B)
    (h : launchFull env batch initial = .ok out) :
    out.results.length = batch.length ∧ out.commands.length = batch.length ∧
    ∀ (i : Nat) toks, batch[i]? = some toks →
      ∃ r cmd script args, out.results[i]? = some r ∧ out.commands[i]? = some cmd ∧
        cmd = buildCommand env.settings (jobNameOf env.taskFn (initial + i))
          script args ∧
        jobNameOf env.taskFn (initial + i) =
          (env.taskFn.funcName.getD env.taskFn.name) ++
            '_' :: intChars (initial + i) ∧
        cmd = "hpc run --job_name ".toList ++
          ((env.taskFn.funcName.getD env.taskFn.name) ++
            ('_' :: (intChars (initial + i) ++
              specCommandTail env.settings script args))) ∧
        r.overrides = (extractScript env.argv0 toks).2 := by
  obtain ⟨hl1, hl2, hf, hidx⟩ := launchLoop_ok_spec h
  refine ⟨hl1, hl2, ?_⟩
  intro i toks hi
  obtain ⟨r, toks2, cmd, hp, hr, hc⟩ := hidx i toks hi
  obtain ⟨ht2, hov, script, args, hcmd⟩ := processOne_ok_parts hp
  have hcmd2 : cmd = buildCommand env.settings (jobNameOf env.taskFn (initial + i))
      script args := by
    rw [hcmd]
    simp
  refine ⟨r, cmd, script, args, hr, hc, hcmd2, rfl, ?_, by rw [hov, ht2]⟩
  rw [hcmd2, buildCommand_name_shape]

set_option maxRecDepth 8192 in
/-- Witness for C9: a three-run batch with `initial_job_idx = 5`; the
run at position 1 is named `f_6`. -/
theorem job_naming_witness :
    ∃ out, launchFull env0 [["a=1".toList], ["b=2".toList], ["c=3".toList]] 5 = .ok out ∧
      ∃ r cmd script args, out.results[1]? = some r ∧ out.commands[1]? = some cmd ∧
        cmd = buildCommand env0.settings
          (jobNameOf env0.taskFn ((5 : Int) + ((1 : Nat) : Int))) script args ∧
        jobNameOf env0.taskFn ((5 : Int) + ((1 : Nat) : Int)) =
          (env0.taskFn.funcName.getD env0.taskFn.name) ++
            '_' :: intChars ((5 : Int) + ((1 : Nat) : Int)) ∧
        cmd = "hpc run --job_name ".toList ++
          ((env0.taskFn.funcName.getD env0.taskFn.name) ++
            ('_' :: (intChars ((5 : Int) + ((1 : Nat) : Int)) ++
              specCommandTail env0.settings script args))) ∧
        r.overrides = (extractScript env0.argv0 ["b=2".toList]).2 :=
  ⟨_, rfl,
    (job_naming env0 [["a=1".toList], ["b=2".toList], ["c=3".toList]] 5 _ rfl).2.2
      1 ["b=2".toList] rfl⟩

end HPCLauncher
